import Mathlib

/-!
# ActualIntesa core — shallow embedding and verification

This file embeds the core of the ActualIntesa repository (an Enable
Banking → Actual Budget transaction sync with a Telegram bot and a
Claude tool-use agent) in Lean 4 and proves properties of it:

* the Mapper `mapTransaction` (src/sync.js);
* the conversation history store `addToHistory` (src/agent/index.js);
* the tool-use orchestration loop of `askAgent` (src/agent/index.js);
* the promise-chain session mutex `withActual` (src/bot/actual-query.js),
  modelled as a small-step state machine over acquisition phases;
* the reconciliation pipeline `runSync` (src/sync.js), with the external
  collaborators (Enable Banking fetch, Actual import) as oracles.

Modelling conventions: JavaScript numbers are modelled by exact
rationals `ℚ`, with `Option ℚ` where `none` stands for `NaN`;
JavaScript `undefined` on optional record fields is `Option.none`;
the single-threaded event loop is modelled by interleaving small steps.
-/

namespace ActualIntesa

/-! ## JavaScript primitives -/

/-- Truthiness of an optional string: `undefined` and `""` are falsy,
every other string is truthy. -/
def strTruthy : Option String → Bool
  | none => false
  | some s => !s.isEmpty

/-- JavaScript `a || b` on optional strings: yields `a` when `a` is
truthy, otherwise `b`. -/
def jsOrStr (a b : Option String) : Option String :=
  if strTruthy a then a else b

/-- Consume a maximal run of decimal digits, accumulating their value
(`v`) and how many were consumed (`n`); returns the rest of the input. -/
def parseDigitsAux : List Char → Nat → Nat → Nat × Nat × List Char
  | [], v, n => (v, n, [])
  | c :: cs, v, n =>
    if c.isDigit then parseDigitsAux cs (v * 10 + (c.toNat - 48)) (n + 1)
    else (v, n, c :: cs)

/-- Consume an optional leading `+`/`-` sign. -/
def parseSign : List Char → Int × List Char
  | '-' :: cs => (-1, cs)
  | '+' :: cs => (1, cs)
  | cs => (1, cs)

/-- An exact scaled decimal, denoting the rational `num / 10 ^ scale`.
This is the idealized value of a JavaScript `parseFloat` result (the
double is the nearest binary approximation of this value). Kept in
integer form so that all downstream arithmetic is kernel-computable. -/
structure Dec where
  num : ℤ
  scale : ℕ
deriving DecidableEq

/-- The rational value denoted by a scaled decimal. -/
def Dec.toRat (d : Dec) : ℚ := (d.num : ℚ) / (10 : ℚ) ^ d.scale

/-- Multiplication by 100 (`amount * 100` in the source). -/
def Dec.mul100 (d : Dec) : Dec := ⟨d.num * 100, d.scale⟩

/-- Apply a decimal exponent `e` to `num / 10 ^ scale`. -/
def applyExpo (num : ℤ) (scale : ℕ) (e : ℤ) : Dec :=
  if 0 ≤ e then ⟨num * 10 ^ e.toNat, scale⟩ else ⟨num, scale + (-e).toNat⟩

/-- JavaScript `parseFloat` on a string: skip leading whitespace, parse
`[+-]?digits[.digits][(e|E)[+-]digits]` as the longest numeric prefix;
`none` models a `NaN` result (no leading numeric prefix at all). -/
def jsParseFloat (s : String) : Option Dec :=
  let cs := s.data.dropWhile (fun c => c == ' ' || c == '\t' || c == '\n' || c == '\r')
  let (sign, cs1) := parseSign cs
  let (ip, ni, cs2) := parseDigitsAux cs1 0 0
  let (fp, nf, cs3) :=
    match cs2 with
    | '.' :: rest => parseDigitsAux rest 0 0
    | _ => (0, 0, cs2)
  if ni + nf = 0 then none
  else
    let mantNum : ℤ := sign * ((ip : ℤ) * 10 ^ nf + (fp : ℤ))
    let expo : Int :=
      match cs3 with
      | 'e' :: rest | 'E' :: rest =>
        let (es, rest1) := parseSign rest
        let (ev, ne, _) := parseDigitsAux rest1 0 0
        if ne = 0 then 0 else es * ev
      | _ => 0
    some (applyExpo mantNum nf expo)

/-- JavaScript `Math.round` (round half toward positive infinity,
`⌊x + 1/2⌋`) of the value `num / 10 ^ scale`, as one integer division:
`⌊n / 10^s + 1/2⌋ = ⌊(2n + 10^s) / (2 · 10^s)⌋`. The lemma
`jsRound_eq_floor` below proves this equals `⌊toRat + 1/2⌋`. -/
def jsRound (d : Dec) : ℤ := (2 * d.num + 10 ^ d.scale) / (2 * 10 ^ d.scale)

/-- Lemma: `jsRound` really is `Math.round` (i.e. `⌊x + 1/2⌋`) on the exact
value of the scaled decimal. -/
theorem jsRound_eq_floor (d : Dec) : jsRound d = ⌊d.toRat + 1 / 2⌋ := by
  have hne : ((10 : ℚ)) ^ d.scale ≠ 0 := pow_ne_zero _ (by norm_num)
  have hval : d.toRat + 1 / 2 =
      ((2 * d.num + 10 ^ d.scale : ℤ) : ℚ) / ((2 * 10 ^ d.scale : ℕ) : ℚ) := by
    field_simp [Dec.toRat]
    ring
  rw [hval, Rat.floor_intCast_div_natCast, jsRound]
  push_cast
  rfl

/-! ## Mapper (`mapTransaction`, src/sync.js)

Raw Enable Banking transactions: every field may be absent
(`undefined`), matching the optional-chaining accesses in the source. -/

structure TransactionAmount where
  amount : Option String
deriving DecidableEq

structure Party where
  name : Option String
deriving DecidableEq

structure BankTransactionCode where
  description : Option String
deriving DecidableEq

structure RawTx where
  booking_date : Option String := none
  value_date : Option String := none
  transaction_date : Option String := none
  transaction_amount : Option TransactionAmount := none
  credit_debit_indicator : Option String := none
  creditor : Option Party := none
  debtor : Option Party := none
  remittance_information : Option (List String) := none
  bank_transaction_code : Option BankTransactionCode := none
  transaction_id : Option String := none
  entry_reference : Option String := none
  status : Option String := none
deriving DecidableEq

/-- The Actual Budget transaction shape produced by the Mapper.
`amount = none` models a `NaN` amount. -/
structure CanonicalTx where
  date : Option String
  amount : Option ℤ
  payee_name : String
  notes : String
  imported_id : Option String
  cleared : Bool
deriving DecidableEq

/-- Access `tx.transaction_amount?.amount`. -/
def rawAmountStr (tx : RawTx) : Option String := tx.transaction_amount.bind (·.amount)

/-- Access `tx.creditor?.name`. -/
def creditorName (tx : RawTx) : Option String := tx.creditor.bind (·.name)

/-- Access `tx.debtor?.name`. -/
def debtorName (tx : RawTx) : Option String := tx.debtor.bind (·.name)

/-- Model of `parseFloat(tx.transaction_amount?.amount || 0)`: an absent or
empty (falsy) amount field falls back to the number `0`; otherwise the
string is parsed, `none` modelling `NaN`. -/
def parsedAmount (tx : RawTx) : Option Dec :=
  match rawAmountStr tx with
  | none => some ⟨0, 0⟩
  | some s => if s.isEmpty then some ⟨0, 0⟩ else jsParseFloat s

/-- Payee fallback: first remittance line when present, else `""`. -/
def remFallback (tx : RawTx) : String :=
  match tx.remittance_information with
  | some (l :: _) => l
  | _ => ""

/-- Function `mapTransaction` (src/sync.js): maps an Enable Banking transaction
to the Actual Budget format. -/
def mapTransaction (tx : RawTx) : CanonicalTx :=
  let date := jsOrStr tx.booking_date (jsOrStr tx.value_date tx.transaction_date)
  let amount : Option ℤ :=
    match parsedAmount tx with
    | none => none
    | some q =>
      let a := jsRound q.mul100
      if tx.credit_debit_indicator == some "DBIT" then some (-(a.natAbs : ℤ))
      else if tx.credit_debit_indicator == some "CRDT" then some ((a.natAbs : ℤ))
      else some a
  let payee_name :=
    if tx.credit_debit_indicator == some "CRDT" && strTruthy (creditorName tx) then
      (creditorName tx).getD ""
    else if tx.credit_debit_indicator == some "DBIT" && strTruthy (debtorName tx) then
      (debtorName tx).getD ""
    else remFallback tx
  let descr := tx.bank_transaction_code.bind (·.description)
  let notes0 := if strTruthy descr then descr.getD "" else ""
  let notes :=
    match tx.remittance_information with
    | some ls =>
      if ls.length > 0 then
        let remittanceText := String.intercalate " " ls
        if notes0.isEmpty then remittanceText else notes0 ++ " - " ++ remittanceText
      else notes0
    | none => notes0
  let imported_id := jsOrStr tx.transaction_id tx.entry_reference
  let cleared := tx.status == some "BOOK"
  ⟨date, amount, payee_name, notes, imported_id, cleared⟩

/-! ## Conversation History Store (src/agent/index.js)

`chatHistories` is a process-wide `Map` from chat id to an array of
`{role, content}` entries; `addToHistory` pushes one entry and then
shifts from the front while the array exceeds `MAX_HISTORY * 2`. -/

def MAX_HISTORY : Nat := 10

structure Turn where
  role : String
  content : String
deriving DecidableEq

/-- The `while (history.length > MAX_HISTORY * 2) history.shift()` loop. -/
def trimHistory (l : List Turn) : List Turn :=
  if l.length > MAX_HISTORY * 2 then trimHistory l.tail else l
termination_by l.length
decreasing_by
  cases l with
  | nil => simp at *
  | cons a t => simp [List.tail]

/-- Function `addToHistory` for a single chat's array: `history.push({role, content})`
followed by the trimming loop. -/
def addToHistory (history : List Turn) (role content : String) : List Turn :=
  trimHistory (history ++ [⟨role, content⟩])

/-- The process-wide store, `chat_id -> history`; absent keys read as `[]`
(`getHistory` inserts an empty array on first access). -/
def HistStore := String → List Turn

/-- Empty store at process start. -/
def emptyStore : HistStore := fun _ => []

/-- Update `addToHistory(chatId, role, content)` at store level: only the
addressed tenant's array changes. -/
def storeAdd (s : HistStore) (chatId role content : String) : HistStore :=
  fun id => if id = chatId then addToHistory (s id) role content else s id

/-- Function `clearHistory(chatId)`: `chatHistories.delete(chatId)`, so the tenant
reads as `[]` again. -/
def clearHistory (s : HistStore) (chatId : String) : HistStore :=
  fun id => if id = chatId then [] else s id

/-- Each `shift` removes one element from the front; the trimming loop
stops exactly at the bound, so the result length is
`min (original length) (MAX_HISTORY * 2)`. -/
theorem trimHistory_length (l : List Turn) :
    (trimHistory l).length = min l.length (MAX_HISTORY * 2) := by
  rw [trimHistory]
  split
  · rw [trimHistory_length l.tail]
    cases l with
    | nil => simp_all
    | cons a t => simp_all; omega
  · omega
termination_by l.length
decreasing_by
  cases l with
  | nil => simp_all
  | cons a t => simp_all

/-- A list already within the bound is left untouched by the loop. -/
theorem trimHistory_of_le (l : List Turn) (h : l.length ≤ MAX_HISTORY * 2) :
    trimHistory l = l := by
  rw [trimHistory]
  split
  · omega
  · rfl

/-- Pushing onto a full (length `MAX_HISTORY * 2`) history evicts
exactly the oldest entry. -/
theorem addToHistory_full (l : List Turn) (r c : String)
    (h : l.length = MAX_HISTORY * 2) :
    addToHistory l r c = l.tail ++ [⟨r, c⟩] := by
  rw [addToHistory, trimHistory]
  split
  next h2 =>
    rw [List.tail_append_of_ne_nil]
    · refine trimHistory_of_le _ ?_
      simp only [List.length_append, List.length_tail, List.length_cons,
        List.length_nil, MAX_HISTORY] at h ⊢
      omega
    · intro hnil
      rw [hnil] at h
      simp [MAX_HISTORY] at h
  next h2 =>
    exfalso
    simp only [List.length_append, List.length_cons, List.length_nil] at h2
    omega

/-- Pushing onto a history strictly below the bound appends without
eviction. -/
theorem addToHistory_small (l : List Turn) (r c : String)
    (h : l.length < MAX_HISTORY * 2) :
    addToHistory l r c = l ++ [⟨r, c⟩] := by
  rw [addToHistory]
  exact trimHistory_of_le _ (by simp; omega)

/-- One store update keeps every tenant's history within the bound. -/
theorem storeAdd_bounded (s : HistStore) (chatId role content : String)
    (hs : ∀ id, (s id).length ≤ MAX_HISTORY * 2) :
    ∀ id, (storeAdd s chatId role content id).length ≤ MAX_HISTORY * 2 := by
  intro id
  rw [storeAdd]
  split
  · rw [addToHistory, trimHistory_length]
    omega
  · exact hs id

/-- The bound is preserved by any sequence of store updates. -/
theorem foldl_storeAdd_bounded (ops : List (String × String × String)) :
    ∀ (s : HistStore), (∀ id, (s id).length ≤ MAX_HISTORY * 2) →
      ∀ id, ((ops.foldl (fun s o => storeAdd s o.1 o.2.1 o.2.2) s) id).length ≤
        MAX_HISTORY * 2 := by
  induction ops with
  | nil => intro s hs id; exact hs id
  | cons o rest ih =>
    intro s hs id
    exact ih _ (storeAdd_bounded s o.1 o.2.1 o.2.2 hs) id

/-! ## Tool-Use Orchestrator (`askAgent`, src/agent/index.js)

The Claude client is modelled as an oracle from the running message
list to the next response; tool executors are modelled as functions
that either return a payload or throw (`Except.error` carrying
`err.message`). The `api` handle threaded to executors is external
read-only state and is absorbed into the executor functions. -/

def MAX_TOOL_ROUNDS : Nat := 10

structure ToolUseBlock where
  id : String
  name : String
  input : String
deriving DecidableEq

/-- One typed content block of a model response. -/
inductive ContentBlock
  | text (s : String)
  | toolUse (b : ToolUseBlock)
deriving DecidableEq

structure Response where
  content : List ContentBlock
  stop_reason : String
deriving DecidableEq

/-- The JSON value stringified into a `tool_result` block: either the
executor's returned payload or `{error: message}`. -/
inductive ToolPayload
  | result (v : String)
  | error (msg : String)
deriving DecidableEq

structure ToolResult where
  tool_use_id : String
  content : ToolPayload
deriving DecidableEq

inductive MsgContent
  | str (s : String)
  | blocks (bs : List ContentBlock)
  | results (rs : List ToolResult)

structure Message where
  role : String
  content : MsgContent

/-- A tool executor: `execute(api, input)`, with a thrown exception
modelled as `Except.error err.message`. -/
def Executor := String → Except String String

/-- Registry `toolExecutors`: the `Map` from tool name to executor
(src/agent/tools.js); `none` models `Map.get` missing. -/
def Registry := String → Option Executor

/-- The Claude client: one `messages.create` call. -/
def Oracle := List Message → Response

/-- Filter `response.content.filter(b => b.type === "tool_use")`. -/
def toolUseBlocks (r : Response) : List ToolUseBlock :=
  r.content.filterMap fun b =>
    match b with
    | .toolUse t => some t
    | .text _ => none

/-- Function `extractText`: concatenate the text blocks, joined by newlines. -/
def extractText (r : Response) : String :=
  String.intercalate "\n" (r.content.filterMap fun b =>
    match b with
    | .text s => some s
    | .toolUse _ => none)

/-- One tool call inside a round: look up the executor by name; an
unknown name synthesizes an error result; a throwing executor is caught
and converted into an error payload on that call's result. -/
def runToolCall (execs : Registry) (b : ToolUseBlock) : ToolResult :=
  match execs b.name with
  | some ex =>
    match ex b.input with
    | .ok v => ⟨b.id, .result v⟩
    | .error m => ⟨b.id, .error m⟩
  | none => ⟨b.id, .error ("Unknown tool: " ++ b.name)⟩

/-- The `for (const block of toolUseBlocks)` loop: every requested call
gets exactly one result pushed, in order. -/
def execRound (execs : Registry) (blocks : List ToolUseBlock) : List ToolResult :=
  blocks.foldl (fun acc b => acc ++ [runToolCall execs b]) []

/-- Outcome of the tool-use loop: the returned answer, how many rounds
of the `while` loop ran, and the model response the answer was taken
from. -/
structure LoopOut where
  answer : String
  roundsUsed : Nat
  final : Response
deriving DecidableEq

/-- The `while (rounds < MAX_TOOL_ROUNDS)` loop of `askAgent`, with
`fuel` the number of rounds still allowed (`MAX_TOOL_ROUNDS - rounds`). -/
def agentLoop (execs : Registry) (oracle : Oracle) :
    Nat → List Message → Response → LoopOut
  | 0, _, response => ⟨extractText response, 0, response⟩
  | fuel + 1, messages, response =>
    let blocks := toolUseBlocks response
    if blocks.isEmpty then ⟨extractText response, 0, response⟩
    else
      let messages1 := messages ++ [⟨"assistant", .blocks response.content⟩]
      let results := execRound execs blocks
      let messages2 := messages1 ++ [⟨"user", .results results⟩]
      let response2 := oracle messages2
      if (toolUseBlocks response2).isEmpty then ⟨extractText response2, 1, response2⟩
      else
        let out := agentLoop execs oracle fuel messages2 response2
        ⟨out.answer, out.roundsUsed + 1, out.final⟩

/-- Function `askAgent` (history bookkeeping aside, covered by the History Store
model): first model call, early return when no tool use was requested,
otherwise the tool-use loop with the full round budget. -/
def askAgent (execs : Registry) (oracle : Oracle) (history : List Message)
    (question : String) : LoopOut :=
  let messages := history ++ [⟨"user", .str question⟩]
  let response := oracle messages
  if response.stop_reason == "end_stop" || (toolUseBlocks response).isEmpty then
    ⟨extractText response, 0, response⟩
  else
    agentLoop execs oracle MAX_TOOL_ROUNDS messages response

/-- The loop runs at most `fuel` rounds, its answer is the text of its
final response, and that response is the initial one or a model
output. -/
theorem agentLoop_spec (execs : Registry) (oracle : Oracle) :
    ∀ (fuel : Nat) (messages : List Message) (response : Response),
      (agentLoop execs oracle fuel messages response).roundsUsed ≤ fuel ∧
      (agentLoop execs oracle fuel messages response).answer =
        extractText (agentLoop execs oracle fuel messages response).final ∧
      ((agentLoop execs oracle fuel messages response).final = response ∨
        ∃ ms, (agentLoop execs oracle fuel messages response).final = oracle ms) := by
  intro fuel
  induction fuel with
  | zero =>
    intro messages response
    exact ⟨Nat.le_refl 0, rfl, Or.inl rfl⟩
  | succ n ih =>
    intro messages response
    rw [agentLoop]
    split
    · exact ⟨Nat.zero_le _, rfl, Or.inl rfl⟩
    · dsimp only
      split
      · exact ⟨Nat.succ_le_succ (Nat.zero_le n), rfl, Or.inr ⟨_, rfl⟩⟩
      · refine ⟨Nat.succ_le_succ (ih _ _).1, (ih _ _).2.1, ?_⟩
        rcases (ih _ _).2.2 with h | ⟨ms, hms⟩
        · exact Or.inr ⟨_, h⟩
        · exact Or.inr ⟨ms, hms⟩

/-! ## Session Coordinator (`withActual`, src/bot/actual-query.js)

The module-scope promise chain

```
const prev = mutex;
let release;
mutex = new Promise((resolve) => { release = resolve; });
return prev.then(async () => { ...init...downloadBudget...fn... finally { shutdown; release(); } });
```

runs synchronously at call time, so the `i`-th `withActual` call (in
call order) waits on the promise released by call `i-1`, and releases
its own promise in the `finally` block after `api.shutdown()` — on the
success, error and early-return paths alike.

We model an execution with `n` calls as a small-step machine over the
per-call acquisition phase, in call (queue) order. A call's protected
section (`connecting` = `api.init` + `downloadBudget`, `working` =
`fn(api)`, `teardown` = `api.shutdown()`) may start only when its
predecessor's promise has resolved (`done`). The per-call
`userConfig` — resource key / tenant — is passed to the step relation
but deliberately ignored by every guard, exactly as the single global
`mutex` ignores it. -/

inductive Phase
  | pending
  | connecting
  | working
  | teardown
  | done
deriving DecidableEq

/-- A phase during which the call holds the (single, stateful) ledger
connection: from the start of `api.init` to the end of `api.shutdown`. -/
def holdsSession : Phase → Bool
  | .connecting => true
  | .working => true
  | .teardown => true
  | .pending => false
  | .done => false

/-- One cooperative step of the event loop, for `withActual` calls whose
phases are listed in call order. `keys i` is the `i`-th call's resource
key (tenant); no guard reads it. -/
inductive CoordStep (keys : Nat → String) : List Phase → List Phase → Prop
  | acquire (s : List Phase) (i : Nat)
      (hi : s[i]? = some Phase.pending)
      (hprev : i = 0 ∨ s[i - 1]? = some Phase.done) :
      CoordStep keys s (s.set i Phase.connecting)
  | connected (s : List Phase) (i : Nat)
      (hi : s[i]? = some Phase.connecting) :
      CoordStep keys s (s.set i Phase.working)
  | connectFailed (s : List Phase) (i : Nat)
      (hi : s[i]? = some Phase.connecting) :
      CoordStep keys s (s.set i Phase.teardown)
  | bodyExited (s : List Phase) (i : Nat)
      (hi : s[i]? = some Phase.working) :
      CoordStep keys s (s.set i Phase.teardown)
  | released (s : List Phase) (i : Nat)
      (hi : s[i]? = some Phase.teardown) :
      CoordStep keys s (s.set i Phase.done)

/-- States reachable from `n` not-yet-admitted calls. -/
def CoordReachable (keys : Nat → String) (n : Nat) (s : List Phase) : Prop :=
  Relation.ReflTransGen (CoordStep keys) (List.replicate n Phase.pending) s

/-- Queue invariant: whenever a later call has left `pending` (its
`api.init` has at least started), every earlier call is `done` (its
teardown finished and its promise resolved). -/
def CoordInv (s : List Phase) : Prop :=
  ∀ (i j : Nat) (pj : Phase),
    i < j → s[j]? = some pj → pj ≠ Phase.pending → s[i]? = some Phase.done

theorem coordInv_init (n : Nat) : CoordInv (List.replicate n Phase.pending) := by
  intro i j pj hij hj hne
  rw [List.getElem?_replicate] at hj
  split at hj
  · cases hj
    exact absurd rfl hne
  · cases hj

/-- Setting a non-`pending`, non-`done` slot to a non-`pending` phase
preserves the queue invariant. -/
theorem coordInv_set (s : List Phase) (i : Nat) (q p : Phase)
    (hs : CoordInv s) (hi : s[i]? = some q)
    (hqp : q ≠ Phase.pending) (hqd : q ≠ Phase.done) :
    CoordInv (s.set i p) := by
  intro a b pb hab hb hne
  have hilen : i < s.length := by
    by_contra hlen
    rw [List.getElem?_eq_none (by omega)] at hi
    cases hi
  by_cases hbi : b = i
  · have ha : s[a]? = some Phase.done := hs a i q (by omega) hi hqp
    rw [List.getElem?_set_ne (by omega)]
    exact ha
  · rw [List.getElem?_set_ne (by omega)] at hb
    by_cases hai : a = i
    · exfalso
      have hd := hs i b pb (by omega) hb hne
      rw [hi] at hd
      exact hqd (Option.some.inj hd)
    · rw [List.getElem?_set_ne (by omega)]
      exact hs a b pb hab hb hne

theorem coordInv_step {keys : Nat → String} {s s' : List Phase}
    (hs : CoordInv s) (hstep : CoordStep keys s s') : CoordInv s' := by
  cases hstep with
  | acquire i hi hprev =>
    intro a b pb hab hb hne
    have hilen : i < s.length := by
      by_contra hlen
      rw [List.getElem?_eq_none (by omega)] at hi
      cases hi
    by_cases hbi : b = i
    · have ha : s[a]? = some Phase.done := by
        rcases hprev with h0 | hdone
        · exact absurd hab (by omega)
        · by_cases hab' : a = i - 1
          · rw [hab']
            exact hdone
          · exact hs a (i - 1) Phase.done (by omega) hdone (by simp)
      rw [List.getElem?_set_ne (by omega)]
      exact ha
    · rw [List.getElem?_set_ne (by omega)] at hb
      by_cases hai : a = i
      · exfalso
        have hd := hs i b pb (by omega) hb hne
        rw [hi] at hd
        simp at hd
      · rw [List.getElem?_set_ne (by omega)]
        exact hs a b pb hab hb hne
  | connected i hi =>
    exact coordInv_set s i Phase.connecting Phase.working hs hi
      (by simp) (by simp)
  | connectFailed i hi =>
    exact coordInv_set s i Phase.connecting Phase.teardown hs hi
      (by simp) (by simp)
  | bodyExited i hi =>
    exact coordInv_set s i Phase.working Phase.teardown hs hi
      (by simp) (by simp)
  | released i hi =>
    exact coordInv_set s i Phase.teardown Phase.done hs hi
      (by simp) (by simp)

/-- The invariant holds in every reachable state. -/
theorem coordInv_reachable {keys : Nat → String} {n : Nat} {s : List Phase}
    (h : CoordReachable keys n s) : CoordInv s := by
  induction h with
  | refl => exact coordInv_init n
  | tail _ hstep ih => exact coordInv_step ih hstep

/-- Call `i` is currently doing ledger work (holds the session). -/
def ledgerActive (s : List Phase) (i : Nat) : Prop :=
  ∃ p, s[i]? = some p ∧ holdsSession p = true

/-- Modelled from the spec: the operation that owns a coordinator
acquisition. `importTransactions` (src/actual.js) is not among the
sources — only its callers are — so per the spec ("acquire a Session
Coordinator block and submit the mapped batch to the ledger's
idempotent import operation"; "all ledger access across both the
Reconciliation Pipeline and every in-flight question funnels through
it") each Reconciliation Pipeline import occupies one slot of the same
process-wide queue that `askAgent`'s tool phase visibly occupies via
`withActual`. -/
inductive OpKind
  | syncOp
  | askOp
deriving DecidableEq

/-! ## Reconciliation Pipeline (`runSync`, src/sync.js)

The Enable Banking fetch and the Actual import are external
collaborators, passed as oracles; `.env` persistence
(`updateEnvValue`) is modelled as a key/value list, replacing the
first matching key line or appending a new one, exactly as the
`^key=.*$` regex replace does. -/

/-- The persisted `.env` content, as key/value pairs. -/
def EnvState := List (String × String)

/-- Reading a key (`process.env.X` after dotenv load). -/
def envLookup (env : EnvState) (k : String) : Option String :=
  match env with
  | [] => none
  | (k0, v0) :: rest => if k0 = k then some v0 else envLookup rest k

/-- Function `updateEnvValue(key, value)` (src/sync.js): replace the first
existing `key=` line, else append one. -/
def updateEnvValue (env : EnvState) (k v : String) : EnvState :=
  match env with
  | [] => [(k, v)]
  | (k0, v0) :: rest =>
    if k0 = k then (k, v) :: rest else (k0, v0) :: updateEnvValue rest k v

theorem envLookup_update (env : EnvState) (k v : String) :
    envLookup (updateEnvValue env k v) k = some v := by
  induction env with
  | nil => simp [updateEnvValue, envLookup]
  | cons p rest ih =>
    by_cases h : p.1 = k
    · simp [updateEnvValue, envLookup, h]
    · simp [updateEnvValue, envLookup, h, ih]

/-- Does `needle` start `hay`? -/
def startsWith : List Char → List Char → Bool
  | _, [] => true
  | [], _ :: _ => false
  | h :: hs, n :: ns => h == n && startsWith hs ns

/-- JavaScript `hay.includes(needle)`. -/
def hasSub : List Char → List Char → Bool
  | [], needle => needle.isEmpty
  | h :: t, needle => startsWith (h :: t) needle || hasSub t needle

/-- ASCII lowercasing (`toLowerCase` for the messages involved). -/
def jsToLower (s : String) : String := String.mk (s.data.map Char.toLower)

/-- The `runSync` catch-clause test reclassifying a fetch failure as an
expired/invalid Enable Banking session. -/
def isSessionAuthError (msg : String) : Bool :=
  hasSub (jsToLower msg).data "session".data ||
  hasSub msg.data "401".data || hasSub msg.data "403".data

/-- Shape of the `importTransactions` result (`added`/`updated`/`errors` may
each be absent, per the `result.added?.length || 0` accesses). -/
structure ImportResult where
  added : Option (List String)
  updated : Option (List String)
  errors : Option (List String)

/-- The one-line sync summary printed at the end of `runSync`. -/
structure SyncSummary where
  fetched : Nat
  imported : Nat
  updated : Nat
  skipped : ℤ
  errors : Nat
deriving DecidableEq

/-- How a `runSync` invocation ends. -/
inductive SyncOutcome
  | exited (code : Nat)
  | threw (msg : String)
  | previewed (txs : List CanonicalTx)
  | completed (summary : SyncSummary)

/-- The date-window start: persisted last-sync date if truthy, else the
90-days-ago default. -/
def computeDateFrom (env : EnvState) (daysAgo90 : String) : String :=
  match envLookup env "LAST_SYNC_DATE" with
  | some d => if d.isEmpty then daysAgo90 else d
  | none => daysAgo90

/-- Function `runSync({dryRun})` (src/sync.js): fetch → map → (preview | import)
→ persist the window end as `LAST_SYNC_DATE`. `fetch` and `doImport`
are the external collaborators; both may throw (`Except.error`).
Returns the outcome together with the final persisted `.env` state. -/
def runSync (env : EnvState) (todayStr daysAgo90 : String) (dryRun : Bool)
    (fetch : String → String → Except String (List RawTx))
    (doImport : List CanonicalTx → Except String ImportResult) :
    SyncOutcome × EnvState :=
  let dateFrom := computeDateFrom env daysAgo90
  let dateTo := todayStr
  match fetch dateFrom dateTo with
  | .error msg =>
    if isSessionAuthError msg then (.exited 1, env) else (.threw msg, env)
  | .ok txs =>
    let mapped := txs.map mapTransaction
    if dryRun then (.previewed mapped, env)
    else
      match doImport mapped with
      | .error m => (.threw m, env)
      | .ok result =>
        let fetched := txs.length
        let imported := (result.added.map List.length).getD 0
        let updated := (result.updated.map List.length).getD 0
        let errors := (result.errors.map List.length).getD 0
        let summary : SyncSummary :=
          ⟨fetched, imported, updated, (fetched : ℤ) - imported - updated, errors⟩
        (.completed summary, updateEnvValue env "LAST_SYNC_DATE" dateTo)

/-! ## Claims -/

/-- C3: For the raw transaction
`{transaction_amount: {amount: "12.345"}, credit_debit_indicator: "DBIT"}`
the Mapper returns `amountMinorUnits = -1235`: the decimal amount is
parsed exactly (`12.345`, whose IEEE-double product with `100` is
exactly `1234.5`), multiplied by 100, rounded to `1235`, and forced
negative by the `DBIT` indicator. -/
theorem mapTransaction_dbit_example :
    jsParseFloat "12.345" = some ⟨12345, 3⟩ ∧
    (Dec.mk 12345 3).toRat = 12345 / 1000 ∧
    jsRound (Dec.mk 12345 3).mul100 = 1235 ∧
    (mapTransaction { transaction_amount := some ⟨some "12.345"⟩,
                      credit_debit_indicator := some "DBIT" }).amount =
      some (-1235) :=
  ⟨by decide, by norm_num [Dec.toRat], by decide, by decide⟩

/-- C4 (counterexample): the Mapper does *not* always return an integer
`amountMinorUnits`: an unparseable amount string (`"abc"`, truthy, so
the `|| 0` fallback does not apply) makes `parseFloat` return `NaN`,
which propagates through `Math.round` and is returned as the amount. -/
theorem mapTransaction_not_total_integer :
    ((mapTransaction { transaction_amount := some ⟨some "abc"⟩ }).amount).isSome =
      false := by decide

/-- C4 (amended): `mapTransaction` never fails (it is a total function),
and its `amountMinorUnits` is a signed integer exactly when the raw
amount parses as a number — i.e. when the amount field is absent, empty,
or has a numeric prefix; an unparseable amount yields `NaN` instead. -/
theorem mapTransaction_amount_isSome_iff (tx : RawTx) :
    ((mapTransaction tx).amount).isSome = ((parsedAmount tx).isSome) := by
  rw [mapTransaction]
  cases hp : parsedAmount tx with
  | none => simp
  | some q =>
    simp only [Option.isSome_some]
    split
    · simp
    · split <;> simp

/-- C5 (counterexample): the claim "`DBIT` implies `amountMinorUnits ≤ 0`"
fails when the raw amount is unparseable: `-Math.abs(NaN)` is `NaN`,
which is not a (nonpositive) integer. -/
theorem mapTransaction_dbit_not_always_nonpos :
    ¬ ∃ a : ℤ,
      (mapTransaction { transaction_amount := some ⟨some "abc"⟩,
                        credit_debit_indicator := some "DBIT" }).amount =
        some a ∧ a ≤ 0 := by
  rintro ⟨a, ha, _⟩
  have hnone :
      (mapTransaction { transaction_amount := some ⟨some "abc"⟩,
                        credit_debit_indicator := some "DBIT" }).amount = none := by
    decide
  rw [hnone] at ha
  cases ha

/-- C5 (amended): whenever the raw amount parses as a number `d`, the
mapped amount of a `DBIT` transaction is a nonpositive integer, that of
a `CRDT` transaction a nonnegative integer (overriding the raw sign),
and with no recognized indicator the rounded value is kept unmodified. -/
theorem mapTransaction_sign_forcing (tx : RawTx) (d : Dec)
    (h : parsedAmount tx = some d) :
    (tx.credit_debit_indicator = some "DBIT" →
      ∃ a : ℤ, (mapTransaction tx).amount = some a ∧ a ≤ 0) ∧
    (tx.credit_debit_indicator = some "CRDT" →
      ∃ a : ℤ, (mapTransaction tx).amount = some a ∧ 0 ≤ a) ∧
    (tx.credit_debit_indicator ≠ some "DBIT" →
      tx.credit_debit_indicator ≠ some "CRDT" →
      (mapTransaction tx).amount = some (jsRound d.mul100)) := by
  refine ⟨?_, ?_, ?_⟩
  · intro hd
    refine ⟨-((jsRound d.mul100).natAbs : ℤ), ?_, by omega⟩
    simp [mapTransaction, h, hd]
  · intro hc
    refine ⟨((jsRound d.mul100).natAbs : ℤ), ?_, by omega⟩
    simp [mapTransaction, h, hc]
  · intro hd hc
    simp [mapTransaction, h, hd, hc]

/-- C5 (witness): a parsed `DBIT` transaction (`"5.25"` debit) has a
nonpositive mapped amount. -/
theorem mapTransaction_sign_forcing_witness :
    ∃ a : ℤ,
      (mapTransaction { transaction_amount := some ⟨some "5.25"⟩,
                        credit_debit_indicator := some "DBIT" }).amount =
        some a ∧ a ≤ 0 :=
  (mapTransaction_sign_forcing
    { transaction_amount := some ⟨some "5.25"⟩,
      credit_debit_indicator := some "DBIT" } ⟨525, 2⟩ (by decide)).1 rfl

/-- C10: when the credit/debit indicator is neither `"CRDT"` nor
`"DBIT"` — and likewise when the party name matching the indicator is
missing or empty — the Mapper ignores `creditor.name` and `debtor.name`
and takes the payee from the first remittance line (empty string when
there is none). -/
theorem mapTransaction_payee_fallback (tx : RawTx)
    (hc : tx.credit_debit_indicator ≠ some "CRDT" ∨
      strTruthy (creditorName tx) = false)
    (hd : tx.credit_debit_indicator ≠ some "DBIT" ∨
      strTruthy (debtorName tx) = false) :
    (mapTransaction tx).payee_name = remFallback tx := by
  have h1 : (tx.credit_debit_indicator == some "CRDT" &&
      strTruthy (creditorName tx)) = false := by
    rcases hc with h | h
    · simp [beq_eq_false_iff_ne.mpr h]
    · simp [h]
  have h2 : (tx.credit_debit_indicator == some "DBIT" &&
      strTruthy (debtorName tx)) = false := by
    rcases hd with h | h
    · simp [beq_eq_false_iff_ne.mpr h]
    · simp [h]
  simp [mapTransaction, h1, h2]

/-- C10 (witness): with indicator `"OTHER"` and both party names
present, the payee is still the first remittance line. -/
theorem mapTransaction_payee_fallback_witness :
    (mapTransaction { credit_debit_indicator := some "OTHER",
                      creditor := some ⟨some "ACME Corp"⟩,
                      debtor := some ⟨some "Bob"⟩,
                      remittance_information := some ["REM1", "REM2"] }).payee_name =
      "REM1" := by
  rw [mapTransaction_payee_fallback _ (Or.inl (by decide)) (Or.inl (by decide))]
  decide

/-- C9: after any sequence of appends the per-tenant history holds at
most `MAX_HISTORY * 2 = 20` entries (10 question/answer pairs); a push
onto a full history evicts the oldest entry from the front (so the 11th
pair evicts the 1st), and a push below the bound evicts nothing. -/
theorem history_bounded_fifo :
    (∀ (ops : List (String × String × String)) (id : String),
      ((ops.foldl (fun s o => storeAdd s o.1 o.2.1 o.2.2) emptyStore) id).length ≤
        MAX_HISTORY * 2) ∧
    (∀ (l : List Turn) (r c : String), l.length = MAX_HISTORY * 2 →
      addToHistory l r c = l.tail ++ [⟨r, c⟩]) ∧
    (∀ (l : List Turn) (r c : String), l.length < MAX_HISTORY * 2 →
      addToHistory l r c = l ++ [⟨r, c⟩]) :=
  ⟨fun ops id =>
    foldl_storeAdd_bounded ops emptyStore (fun _ => by simp [emptyStore]) id,
   addToHistory_full, addToHistory_small⟩

/-- C9 (witness): pushing the 21st entry onto a 20-entry history drops
the oldest; pushing onto a 1-entry history appends without eviction. -/
theorem history_bounded_fifo_witness :
    (addToHistory (List.replicate 20 ⟨"user", "old"⟩) "user" "q11" =
      (List.replicate 20 (Turn.mk "user" "old")).tail ++ [⟨"user", "q11"⟩]) ∧
    (addToHistory [⟨"user", "q1"⟩] "assistant" "a1" =
      [⟨"user", "q1"⟩, ⟨"assistant", "a1"⟩]) :=
  ⟨history_bounded_fifo.2.1 _ _ _ (by decide),
   history_bounded_fifo.2.2 [⟨"user", "q1"⟩] "assistant" "a1" (by decide)⟩

/-- C6: the tool-use loop of `askAgent` always terminates within
`MAX_TOOL_ROUNDS = 10` rounds — for *every* model oracle, in particular
one that requests a tool call in every round — and the returned answer
is the extracted text of the last model response rather than a hang or
an exception. -/
theorem askAgent_bounded_rounds (execs : Registry) (oracle : Oracle)
    (history : List Message) (question : String) :
    MAX_TOOL_ROUNDS = 10 ∧
    (askAgent execs oracle history question).roundsUsed ≤ MAX_TOOL_ROUNDS ∧
    (askAgent execs oracle history question).answer =
      extractText (askAgent execs oracle history question).final ∧
    ∃ ms, (askAgent execs oracle history question).final = oracle ms := by
  rw [askAgent]
  split
  · exact ⟨rfl, Nat.zero_le _, rfl, ⟨_, rfl⟩⟩
  · obtain ⟨h1, h2, h3⟩ := agentLoop_spec execs oracle MAX_TOOL_ROUNDS
      (history ++ [⟨"user", .str question⟩])
      (oracle (history ++ [⟨"user", .str question⟩]))
    refine ⟨rfl, h1, h2, ?_⟩
    rcases h3 with h | h
    · exact ⟨_, h⟩
    · exact h

/-- Lemma: `execRound` produces exactly one result per requested call, in
order. -/
theorem execRound_eq_map (execs : Registry) (blocks : List ToolUseBlock) :
    execRound execs blocks = blocks.map (runToolCall execs) := by
  have haux : ∀ (l : List ToolUseBlock) (acc : List ToolResult),
      l.foldl (fun a b => a ++ [runToolCall execs b]) acc =
        acc ++ l.map (runToolCall execs) := by
    intro l
    induction l with
    | nil => intro acc; simp
    | cons b rest ih => intro acc; simp [ih]
  simpa [execRound] using haux blocks []

/-- C7: inside one round, every requested tool call gets exactly one
result; an unknown tool name synthesizes an error result; a throwing
executor is caught and turned into an error payload on that call's
result; and the question still produces an answer (the loop returns the
final response's text for every executor registry). -/
theorem tool_failures_isolated (execs : Registry) :
    (∀ blocks : List ToolUseBlock,
      execRound execs blocks = blocks.map (runToolCall execs) ∧
      (execRound execs blocks).length = blocks.length) ∧
    (∀ b : ToolUseBlock, execs b.name = none →
      runToolCall execs b = ⟨b.id, .error ("Unknown tool: " ++ b.name)⟩) ∧
    (∀ (b : ToolUseBlock) (ex : Executor) (m : String),
      execs b.name = some ex → ex b.input = .error m →
      runToolCall execs b = ⟨b.id, .error m⟩) ∧
    (∀ (oracle : Oracle) (history : List Message) (question : String),
      (askAgent execs oracle history question).answer =
        extractText (askAgent execs oracle history question).final) := by
  refine ⟨?_, ?_, ?_, ?_⟩
  · intro blocks
    refine ⟨execRound_eq_map execs blocks, ?_⟩
    rw [execRound_eq_map execs blocks, List.length_map]
  · intro b hb
    rw [runToolCall, hb]
  · intro b ex m hb hex
    simp [runToolCall, hb, hex]
  · intro oracle history question
    rw [askAgent]
    split
    · rfl
    · exact (agentLoop_spec execs oracle MAX_TOOL_ROUNDS _ _).2.1

/-- C7 (witness): with a registry holding a throwing `"boom"` executor
and nothing else, an unknown tool yields a synthesized error result and
the throwing executor's message is attached as an error payload. -/
theorem tool_failures_isolated_witness :
    (runToolCall
        (fun n => if n = "boom"
          then some (fun _ => Except.error "kaboom") else none)
        ⟨"t1", "mystery", "x"⟩ =
      ⟨"t1", .error ("Unknown tool: " ++ "mystery")⟩) ∧
    (runToolCall
        (fun n => if n = "boom"
          then some (fun _ => Except.error "kaboom") else none)
        ⟨"t2", "boom", "y"⟩ =
      ⟨"t2", .error "kaboom"⟩) :=
  ⟨(tool_failures_isolated _).2.1 _ rfl,
   (tool_failures_isolated _).2.2.1 _ _ _ rfl rfl⟩

/-- C8: `runSync` persists the window end as the new `LAST_SYNC_DATE`
exactly when the import step succeeded: a fetch failure leaves the
persisted state unchanged, a throwing import leaves it unchanged and
rethrows, and a successful import — with any per-transaction `errors`
reported inside the result — advances the date. -/
theorem runSync_persists_on_success (env : EnvState) (today d90 : String)
    (fetch : String → String → Except String (List RawTx))
    (doImport : List CanonicalTx → Except String ImportResult) :
    (∀ m, fetch (computeDateFrom env d90) today = .error m →
      (runSync env today d90 false fetch doImport).2 = env) ∧
    (∀ txs m, fetch (computeDateFrom env d90) today = .ok txs →
      doImport (txs.map mapTransaction) = .error m →
      runSync env today d90 false fetch doImport = (.threw m, env)) ∧
    (∀ txs res, fetch (computeDateFrom env d90) today = .ok txs →
      doImport (txs.map mapTransaction) = .ok res →
      (runSync env today d90 false fetch doImport).2 =
        updateEnvValue env "LAST_SYNC_DATE" today ∧
      envLookup (runSync env today d90 false fetch doImport).2 "LAST_SYNC_DATE" =
        some today) := by
  refine ⟨?_, ?_, ?_⟩
  · intro m hf
    simp only [runSync, hf]
    split <;> rfl
  · intro txs m hf hi
    simp [runSync, hf, hi]
  · intro txs res hf hi
    simp [runSync, hf, hi, envLookup_update]

/-- C8 (witness): with one fixed `.env`, an import that throws leaves
`LAST_SYNC_DATE` at its old value; an import that succeeds while
reporting one per-transaction error still advances it; a fetch failure
leaves the state unchanged. -/
theorem runSync_persists_on_success_witness :
    (runSync [("LAST_SYNC_DATE", "2026-01-01")] "2026-02-02" "2025-11-04" false
        (fun _ _ => .ok []) (fun _ => .error "import blew up") =
      (.threw "import blew up", [("LAST_SYNC_DATE", "2026-01-01")])) ∧
    (envLookup
        (runSync [("LAST_SYNC_DATE", "2026-01-01")] "2026-02-02" "2025-11-04" false
          (fun _ _ => .ok [])
          (fun _ => .ok ⟨some ["t1"], some [], some ["row 3 invalid"]⟩)).2
        "LAST_SYNC_DATE" = some "2026-02-02") ∧
    ((runSync [("LAST_SYNC_DATE", "2026-01-01")] "2026-02-02" "2025-11-04" false
        (fun _ _ => .error "ECONNREFUSED") (fun _ => .error "unused")).2 =
      [("LAST_SYNC_DATE", "2026-01-01")]) :=
  ⟨(runSync_persists_on_success _ _ _ _ _).2.1 [] "import blew up" rfl rfl,
   ((runSync_persists_on_success _ _ _ _ _).2.2 []
      ⟨some ["t1"], some [], some ["row 3 invalid"]⟩ rfl rfl).2,
   (runSync_persists_on_success _ _ _ _ _).1 "ECONNREFUSED" rfl⟩

/-- No two distinct coordinator acquisitions hold the ledger session at
once, in any reachable state. -/
theorem coord_no_two_active {s : List Phase} (hinv : CoordInv s) :
    ∀ i j : Nat, i ≠ j → ¬(ledgerActive s i ∧ ledgerActive s j) := by
  have key : ∀ a b : Nat, a < b → ledgerActive s a → ledgerActive s b → False := by
    rintro a b hab ⟨pa, hpa, ha⟩ ⟨pb, hpb, hb⟩
    have hne : pb ≠ Phase.pending := by
      intro he
      rw [he] at hb
      simp [holdsSession] at hb
    have hdone := hinv a b pb hab hpb hne
    rw [hdone] at hpa
    cases hpa
    simp [holdsSession] at ha
  intro i j hij ⟨hi, hj⟩
  rcases Nat.lt_trichotomy i j with hlt | heq | hgt
  · exact key i j hlt hi hj
  · exact hij heq
  · exact key j i hgt hj hi

/-- A later acquisition does ledger work only after every earlier one
has fully released. -/
theorem coord_second_waits {s : List Phase} (hinv : CoordInv s) :
    ∀ i j : Nat, i < j → ledgerActive s j → s[i]? = some Phase.done := by
  rintro i j hij ⟨pj, hpj, hj⟩
  refine hinv i j pj hij hpj ?_
  intro he
  rw [he] at hj
  simp [holdsSession] at hj

/-- C2: the Session Coordinator (`withActual`'s promise-chain mutex)
never admits two concurrent holders, and admission is FIFO in call
order for every assignment of resource keys (the guards never read
`keys`): in any reachable state, whenever a later call has left
`pending` — its `api.init` has at least begun — every earlier call has
completed its teardown (`done`), and no two calls hold the session. -/
theorem withActual_fifo_mutex (keys : Nat → String) (n : Nat) (s : List Phase)
    (h : CoordReachable keys n s) :
    (∀ (i j : Nat) (pj : Phase), i < j → s[j]? = some pj →
      pj ≠ Phase.pending → s[i]? = some Phase.done) ∧
    (∀ i j : Nat, i ≠ j → ¬(ledgerActive s i ∧ ledgerActive s j)) :=
  ⟨coordInv_reachable h, coord_no_two_active (coordInv_reachable h)⟩

/-- C2 (witness): a concrete reachable two-call state — the first call
fully done, the second mid-`connect` — in which the theorem yields that
call 0 is `done`. -/
theorem withActual_fifo_mutex_witness :
    ([Phase.done, Phase.connecting] : List Phase)[0]? = some Phase.done := by
  have t0 : CoordReachable (fun _ => "tenantA") 2 [Phase.pending, Phase.pending] :=
    Relation.ReflTransGen.refl
  have t1 := t0.tail (CoordStep.acquire _ 0 rfl (Or.inl rfl))
  have t2 := t1.tail (CoordStep.connected _ 0 rfl)
  have t3 := t2.tail (CoordStep.bodyExited _ 0 rfl)
  have t4 := t3.tail (CoordStep.released _ 0 rfl)
  have t5 := t4.tail (CoordStep.acquire _ 1 rfl (Or.inr rfl))
  exact (withActual_fifo_mutex (fun _ => "tenantA") 2
    [Phase.done, Phase.connecting] t5).1 0 1 Phase.connecting
    (by omega) rfl (by simp)

/-- C1: every ledger access of both the Reconciliation Pipeline
(`sync`, whose import acquires a coordinator slot — modelled from the
spec, `importTransactions`' source being absent) and the Tool-Use
Orchestrator (`ask`, via `withActual`) goes through the single
process-wide queue: for any two coordinator acquisitions — a `sync`
overlapping a `sync`, or a `sync` overlapping a question's tool
round — their ledger work never interleaves, and the later operation's
ledger access begins only after the earlier one's session handle has
closed. -/
theorem ledger_access_serialized (ops : Nat → OpKind) (keys : Nat → String)
    (n : Nat) (s : List Phase) (h : CoordReachable keys n s) :
    ∀ i j : Nat,
      ops i = OpKind.syncOp →
      ops j = OpKind.syncOp ∨ ops j = OpKind.askOp →
      i ≠ j →
      ¬(ledgerActive s i ∧ ledgerActive s j) ∧
      (i < j → ledgerActive s j → s[i]? = some Phase.done) := by
  intro i j hoi hoj hij
  have hinv := coordInv_reachable h
  exact ⟨coord_no_two_active hinv i j hij,
    fun hlt hact => coord_second_waits hinv i j hlt hact⟩

/-- C1 (witness): a `sync` import (call 0) followed by a question's tool
round (call 1), with call 1 currently running `fn`: the theorem yields
that the sync's handle is closed. -/
theorem ledger_access_serialized_witness :
    ([Phase.done, Phase.working] : List Phase)[0]? = some Phase.done := by
  have t0 : CoordReachable (fun _ => "chat-42") 2 [Phase.pending, Phase.pending] :=
    Relation.ReflTransGen.refl
  have t1 := t0.tail (CoordStep.acquire _ 0 rfl (Or.inl rfl))
  have t2 := t1.tail (CoordStep.connected _ 0 rfl)
  have t3 := t2.tail (CoordStep.bodyExited _ 0 rfl)
  have t4 := t3.tail (CoordStep.released _ 0 rfl)
  have t5 := t4.tail (CoordStep.acquire _ 1 rfl (Or.inr rfl))
  have t6 := t5.tail (CoordStep.connected _ 1 rfl)
  exact (ledger_access_serialized
    (fun i => if i = 0 then OpKind.syncOp else OpKind.askOp)
    (fun _ => "chat-42") 2 [Phase.done, Phase.working] t6 0 1
    (by decide) (Or.inr (by decide)) (by omega)).2
    (by omega) ⟨Phase.working, rfl, rfl⟩

end ActualIntesa
